import Mathlib

/-!
Verification of the columbus-united skipchain explorer core.

The development shallowly embeds the repository's TypeScript sources:

* `src/src/utils.ts` — the `Utils` class: hex conversion helpers
  (`bytes2String`, `hex2Bytes`), neighbour-hash computation
  (`getLeftBlockHash`, `getRightBlockHash`) and the RPC wrappers
  (`getBlock`, `getBlockByIndex`).
* `src/unnamed/part_000` — the `DetailBlock` class: rendering of a
  block's transactions (`listTransaction`), rendering of instance-scan
  results (`printDataBrowsing`), and the progress bar
  (`createProgressBar`, `updateProgressBar`).

JavaScript `Buffer`s are embedded as lists of naturals (each byte
bounded by 256 where it matters), JavaScript strings as lists of
characters, and a JavaScript expression that can throw (for example an
access to a property of `undefined` or a call on `null`) as an
`Option` / `Except` value, `none` / `.error` marking the thrown state.

The Chain Walker and Instance Scanner of the specification live in
repository files that are not part of the given sources (`chain.ts`,
`browsing.ts` are only imported here); they are modelled from the
specification, and each such definition is marked `Modelled from the
spec:` in its documentation.
-/

/-- A JavaScript `Buffer`: a sequence of bytes, embedded as naturals. -/
abbrev Buffer := List Nat

/-- A JavaScript string, embedded as its sequence of characters. -/
abbrev JSString := List Char

/-- Embed a Lean string literal as a JavaScript string. -/
def jstr (s : String) : JSString := s.data

namespace Utils

/-- The lowercase hexadecimal digit for a value below 16, as produced by
Node's `Buffer.prototype.toString("hex")`. -/
def hexDigitChar (n : Nat) : Char :=
  match n with
  | 0 => '0' | 1 => '1' | 2 => '2' | 3 => '3' | 4 => '4'
  | 5 => '5' | 6 => '6' | 7 => '7' | 8 => '8' | 9 => '9'
  | 10 => 'a' | 11 => 'b' | 12 => 'c' | 13 => 'd' | 14 => 'e'
  | _ => 'f'

/-- The two lowercase hexadecimal digits encoding one byte. -/
def byteToHex (b : Nat) : List Char :=
  [hexDigitChar (b / 16), hexDigitChar (b % 16)]

/-- Embeds `Utils.bytes2String` (src/src/utils.ts line 15):
`b.toString("hex")`, the lowercase hexadecimal rendering of a buffer. -/
def bytes2String (b : Buffer) : JSString :=
  b.flatMap byteToHex

/-- The numeric value of one hexadecimal digit character, `none` for a
character that is not a hexadecimal digit.  Node accepts both cases. -/
def hexCharVal (c : Char) : Option Nat :=
  if 48 ≤ c.toNat ∧ c.toNat ≤ 57 then some (c.toNat - 48)
  else if 97 ≤ c.toNat ∧ c.toNat ≤ 102 then some (c.toNat - 87)
  else if 65 ≤ c.toNat ∧ c.toNat ≤ 70 then some (c.toNat - 55)
  else none

/-- Node's hexadecimal decoder: consume pairs of hexadecimal digits,
stopping (without error) at the first invalid pair or odd tail. -/
def hexPairs : List Char → Buffer
  | c1 :: c2 :: rest =>
    match hexCharVal c1, hexCharVal c2 with
    | some h, some l => (16 * h + l) :: hexPairs rest
    | _, _ => []
  | _ => []

/-- Embeds `Utils.hex2Bytes` (src/src/utils.ts line 23).  The JavaScript
argument may be `undefined` or `null`, embedded as `none`; the guard
`if (!hex)` is true exactly for a missing or empty string and returns a
zero-length buffer, otherwise `Buffer.from(hex, "hex")` decodes. -/
def hex2Bytes : Option JSString → Buffer
  | none => []
  | some hex => if hex = [] then [] else hexPairs hex

end Utils

/-- One named argument of an instruction (`arg.name`, `arg.value`). -/
structure InstrArg where
  name : JSString
  value : Buffer
  deriving DecidableEq

/-- The payload of an instruction.  The source distinguishes the three
kinds by a runtime tag (`Instruction.typeSpawn`, `Instruction.typeInvoke`,
`Instruction.typeDelete`) and accesses `instruction.spawn`,
`instruction.invoke` or `instruction.delete`; this closed variant carries
each tag's payload directly.  A Delete instruction carries no argument
list. -/
inductive InstrBody
  | spawn (contractID : JSString) (args : List InstrArg)
  | invoke (contractID : JSString) (args : List InstrArg)
  | delete (contractID : JSString)
  deriving DecidableEq

/-- One instruction of a client transaction, with the instance ID of the
ledger resource it operates on. -/
structure Instruction where
  instanceID : Buffer
  body : InstrBody
  deriving DecidableEq

/-- A decoded client transaction: an ordered list of instructions. -/
structure ClientTransaction where
  instructions : List Instruction
  deriving DecidableEq

/-- One entry of `DataBody.txResults`: the acceptance flag and the
client transaction. -/
structure TxResult where
  accepted : Bool
  clientTransaction : ClientTransaction
  deriving DecidableEq

/-- A forward link of a skipblock (`forwardLinks[i].to`). -/
structure ForwardLink where
  «to» : Buffer
  deriving DecidableEq

/-- A skipchain block.  `payload` holds the block's body already decoded
into transactions — the binary decoder (`DataBody.decode`) is an external
collaborator of the specified core, so the model works on its output. -/
structure SkipBlock where
  index : Nat
  hash : Buffer
  backlinks : List Buffer
  forwardLinks : List ForwardLink
  payload : List TxResult
  deriving DecidableEq

/-- Errors of the external RPC fetch capability. -/
structure FetchErr where
  message : JSString
  deriving DecidableEq

namespace Utils

/-- Embeds `Utils.getLeftBlockHash` (src/src/utils.ts line 46):
`bytes2String(block.backlinks[0])`.  On a block with no backlink,
`block.backlinks[0]` is `undefined` and `undefined.toString("hex")`
throws, embedded as `none`. -/
def getLeftBlockHash (block : SkipBlock) : Option JSString :=
  (block.backlinks[0]?).map bytes2String

/-- Embeds `Utils.getRightBlockHash` (src/src/utils.ts line 54):
`bytes2String(block.forwardLinks[0].to)`.  On a block with no forward
link, `block.forwardLinks[0]` is `undefined` and accessing `.to` throws,
embedded as `none`. -/
def getRightBlockHash (block : SkipBlock) : Option JSString :=
  (block.forwardLinks[0]?).map (fun fl => bytes2String fl.«to»)

/-- Embeds `Utils.getBlock` (src/src/utils.ts lines 65-74).  The RPC
client (`new SkipchainRPC(roster).getSkipBlock`) is the external fetch
capability, passed as a function; the wrapper resolves with the fetched
block and passes any rejection through (`.catch((e) => reject(e))`). -/
def getBlock (rpc : Buffer → Except FetchErr SkipBlock) (hash : Buffer) :
    Except FetchErr SkipBlock :=
  match rpc hash with
  | .ok skipblock => .ok skipblock
  | .error e => .error e

/-- The reply of `SkipchainRPC.getSkipBlockByIndex`: a record whose
`skipblock` field carries the block. -/
structure GetSingleBlockReply where
  skipblock : SkipBlock
  deriving DecidableEq

/-- Embeds `Utils.getBlockByIndex` (src/src/utils.ts lines 84-97).  The
wrapper resolves with `skipblock.skipblock` from the reply and passes any
rejection through. -/
def getBlockByIndex (rpc : Buffer → Nat → Except FetchErr GetSingleBlockReply)
    (genesis : Buffer) (index : Nat) : Except FetchErr SkipBlock :=
  match rpc genesis index with
  | .ok reply => .ok reply.skipblock
  | .error e => .error e

end Utils

/-- Direction of a chain walk. -/
inductive Direction
  | forward
  | backward
  deriving DecidableEq

/-- Modelled from the spec: the next hash a Chain Walker follows from a
block — `start.forwardLinks[0].to` going FORWARD, `start.backlinks[0]`
going BACKWARD (§4.1), computed by `Utils.getRightBlockHash` /
`Utils.getLeftBlockHash`; `none` when the block has no link in the
requested direction (the chain boundary). -/
def nextLinkHash (b : SkipBlock) : Direction → Option JSString
  | .forward => Utils.getRightBlockHash b
  | .backward => Utils.getLeftBlockHash b

/-- Modelled from the spec: the Chain Walker of §4.1 (its source,
`chain.ts` / the walker inside `browsing.ts`, is not among the given
files).  From a start block it repeatedly follows `nextLinkHash`,
fetching each next block with the injected fetch capability, and returns
the directionally ordered list of blocks after the start: it ends
normally (`.ok`) at a block with no link in the requested direction, and
a fetch failure ends the walk with that error (`.error`), distinguishable
from normal exhaustion.  `fuel` bounds the number of steps (chains are
finite). -/
def walk (fetch : JSString → Except FetchErr SkipBlock) :
    Nat → SkipBlock → Direction → Except FetchErr (List SkipBlock)
  | 0, _, _ => .ok []
  | fuel + 1, b, dir =>
    match nextLinkHash b dir with
    | none => .ok []
    | some h =>
      match fetch h with
      | .error e => .error e
      | .ok nb =>
        match walk fetch fuel nb dir with
        | .error e => .error e
        | .ok rest => .ok (nb :: rest)

/-- Modelled from the spec: the hashes a Chain Walker requests from the
injected fetch capability, in request order (§4.1: at each step it
follows `start.forwardLinks[0].to` going FORWARD, `start.backlinks[0]`
going BACKWARD). -/
def walkFetches (fetch : JSString → Except FetchErr SkipBlock) :
    Nat → SkipBlock → Direction → List JSString
  | 0, _, _ => []
  | fuel + 1, b, dir =>
    match nextLinkHash b dir with
    | none => []
    | some h =>
      h :: (match fetch h with
            | .error _ => []
            | .ok nb => walkFetches fetch fuel nb dir)

/-- All instructions of a block, in the block's transaction order, then
instruction order (the scan order of §4.2). -/
def blockInstructions (b : SkipBlock) : List Instruction :=
  b.payload.flatMap (fun tx => tx.clientTransaction.instructions)

/-- Modelled from the spec: a Match (§3) — the originating block hash as
a display string together with the matching instruction. -/
structure ScanMatch where
  blockHash : JSString
  instruction : Instruction
  deriving DecidableEq

/-- Modelled from the spec: the matches one block contributes (§4.2) —
its instructions whose instance ID byte sequence is exactly equal to the
target, in transaction order then instruction order, each paired with
the block's hash display string. -/
def blockMatches (target : Buffer) (b : SkipBlock) : List ScanMatch :=
  ((blockInstructions b).filter (fun ins => decide (ins.instanceID = target))).map
    (fun ins => ⟨Utils.bytes2String b.hash, ins⟩)

/-- Modelled from the spec: discovery-order interleaving of the two
directions' per-block contributions (§4.2) — whichever direction yields
its next block first is processed first; the schedule records which
direction delivered first at each step (`true` picks the first list).
When the scheduled direction is exhausted the other continues alone. -/
def interleave {α : Type} : List Bool → List α → List α → List α
  | [], xs, ys => xs ++ ys
  | true :: s, xs, ys =>
    match xs with
    | [] => ys
    | x :: xs' => x :: interleave s xs' ys
  | false :: s, xs, ys =>
    match ys with
    | [] => xs
    | y :: ys' => y :: interleave s xs ys'

/-- Modelled from the spec: the match stream of a completed (uncancelled)
scan started at chain position `i` (§4.2; the Instance Scanner's source,
`browsing.ts`, is not among the given files).  The origin block's matches
are emitted, and the per-block match lists produced by the BACKWARD
walker (blocks `i-1 … 0`) and the FORWARD walker (blocks `i+1 …` tip) are
emitted interleaved by the delivery schedule, each block's matches
together. -/
def scanMatches (chain : List SkipBlock) (i : Nat) (target : Buffer)
    (sched : List Bool) : List ScanMatch :=
  (match chain[i]? with
   | some b => blockMatches target b
   | none => []) ++
  (interleave sched
     ((chain.take i).reverse.map (blockMatches target))
     ((chain.drop (i + 1)).map (blockMatches target))).flatten

/-- The matches of a whole chain, block by block in chain order. -/
def chainMatches (target : Buffer) (chain : List SkipBlock) : List ScanMatch :=
  (chain.map (blockMatches target)).flatten

/-- All instructions of a chain, block by block in chain order. -/
def chainInstructions (chain : List SkipBlock) : List Instruction :=
  (chain.map blockInstructions).flatten

/-- Modelled from the spec: the progress stream of one scan (§4.2) — an
integer percentage after each visited block, `visited` relative to the
estimated `total` of blocks spanning both directions (origin included,
so a scan has `0 < total`); a scan that completes (both walkers
exhausted, no direction-fatal error) has `visited = total`, a
direction-fatally interrupted scan stops with `visited < total`. -/
def progressStream (total visited : Nat) : List Nat :=
  (List.range visited).map (fun k => (k + 1) * 100 / total)

/-- Modelled from the spec: the per-scan mutable ScanState (§3) — the
two directional cursors as the remaining per-block match lists, the
estimated total and the count of blocks visited so far, and the
cancelled flag. -/
structure ScanState where
  backQueue : List (List ScanMatch)
  fwdQueue : List (List ScanMatch)
  total : Nat
  visited : Nat
  cancelled : Bool
  deriving DecidableEq

/-- Modelled from the spec: the events driving one scan — delivery of
the next block from one direction's walker (`true` picks the backward
walker), or the caller's cancellation (§4.2). -/
inductive ScanEvent
  | deliver (backward : Bool)
  | cancel
  deriving DecidableEq

/-- Modelled from the spec: one step of the Instance Scanner (§4.2, §5).
Cancellation stops both walkers and closes both output streams — a
cancelled scan emits no further matches and no further progress ticks;
processing a delivered block emits the block's matches together on the
match stream and one percentage tick on the progress stream. -/
def scanStep (s : ScanState) : ScanEvent → ScanState × List ScanMatch × List Nat
  | .cancel => ({ s with cancelled := true, backQueue := [], fwdQueue := [] }, [], [])
  | .deliver backward =>
    if s.cancelled then (s, [], [])
    else if backward then
      match s.backQueue with
      | [] => (s, [], [])
      | m :: rest =>
        ({ s with backQueue := rest, visited := s.visited + 1 },
         m, [(s.visited + 1) * 100 / s.total])
    else
      match s.fwdQueue with
      | [] => (s, [], [])
      | m :: rest =>
        ({ s with fwdQueue := rest, visited := s.visited + 1 },
         m, [(s.visited + 1) * 100 / s.total])

/-- Modelled from the spec: a scan run — fold `scanStep` over an event
sequence, concatenating what each step emits on the match stream and on
the progress stream. -/
def scanRun : ScanState → List ScanEvent → ScanState × List ScanMatch × List Nat
  | s, [] => (s, [], [])
  | s, ev :: evs =>
    let step := scanStep s ev
    let rest := scanRun step.1 evs
    (rest.1, step.2.1 ++ rest.2.1, step.2.2 ++ rest.2.2)

/-- Embeds the per-instruction rendering of `DetailBlock.listTransaction`
(src/unnamed/part_000 lines 59-109) as the list of texts appended for one
instruction.  In the source, `args` starts as `null` and is assigned only
in the Spawn and Invoke branches; after the kind branches the code
unconditionally appends the hash and instance ID paragraphs and then
iterates `args.forEach(...)` — which throws a TypeError when `args` is
still `null`, as it is for a Delete instruction.  A throw is embedded as
`none`. -/
def listTransactionInstr (ins : Instruction) : Option (List JSString) :=
  let branch : List JSString × Option (List InstrArg) :=
    match ins.body with
    | .spawn contractID args =>
      ([jstr "Spawn instruction, name of contract: " ++ contractID], some args)
    | .invoke contractID args =>
      ([jstr "Invoke instruction, name of contract: " ++ contractID], some args)
    | .delete contractID =>
      ([jstr "Delete instruction, name of contract:" ++ contractID], none)
  let headerLines :=
    branch.1 ++ [jstr "Instance ID: " ++ Utils.bytes2String ins.instanceID]
  match branch.2 with
  | none => none
  | some args =>
    some (headerLines ++
      args.flatMap (fun arg => [arg.name, Utils.bytes2String arg.value]))

/-- Embeds the per-entry rendering of `DetailBlock.printDataBrowsing`
(src/unnamed/part_000 lines 213-304) as the list of texts appended for
one scan-result entry.  For Spawn and Invoke the outer `textContainer`
and `args` locals are assigned; the Delete branch declares a *shadowing*
`let textContainer`, so the outer one stays `null` and `args` is never
assigned — the code after the branches calls `textContainer.append(...)`
and `args.forEach(...)`, both of which throw for a Delete entry (`none`). -/
def printDataBrowsingInstr (blockHashHex : JSString) (ins : Instruction) :
    Option (List JSString) :=
  let branch : Option (List JSString) × Option (List InstrArg) :=
    match ins.body with
    | .spawn contractID args =>
      (some [jstr "Spawn with instanceID: " ++ Utils.bytes2String ins.instanceID,
             jstr "In the block: " ++ blockHashHex,
             jstr "ContractID: " ++ contractID], some args)
    | .invoke contractID args =>
      (some [jstr "Invoke with instanceID: " ++ Utils.bytes2String ins.instanceID,
             jstr "In the block: " ++ blockHashHex,
             jstr "ContractID: " ++ contractID], some args)
    | .delete _ => (none, none)
  match branch with
  | (some lines, some args) =>
    some (lines ++ [jstr "args are:"] ++
      args.flatMap (fun arg => [arg.name, Utils.bytes2String arg.value]))
  | _ => none

/-- Embeds the highlight rule of `DetailBlock.printDataBrowsing`
(src/unnamed/part_000 lines 301-303): the entry at position `i` of the
scan-result listing is styled red exactly when `tuple[0][i]` — the hash
string of the block the match came from — equals the clicked block's
hash rendered in hexadecimal. -/
def highlightedEntries (blockHashes : List JSString) (clickedHashHex : JSString) :
    List Nat :=
  (List.range blockHashes.length).filter
    (fun i => decide (blockHashes.getD i [] = clickedHashHex))

/-- The progress-bar DOM state a `DetailBlock` instance keeps: the three
element handles (`undefined`, i.e. `none`, until created; distinct
element identifiers once created), how many progress-bar element groups
were ever appended to the document body, the text of the text bar and
the width style of the bar. -/
structure ProgressBarState where
  progressBarContainer : Option Nat
  progressBar : Option Nat
  textBar : Option Nat
  createdBars : Nat
  textShown : JSString
  widthPercent : Nat
  deriving DecidableEq

/-- The `DetailBlock` constructor sets the three handles to `undefined`
(src/unnamed/part_000 lines 36-38). -/
def initProgressBarState : ProgressBarState :=
  ⟨none, none, none, 0, jstr "", 0⟩

/-- Embeds `DetailBlock.createProgressBar` (src/unnamed/part_000 lines
311-324): when both the container and the bar handle are still
`undefined`, append the container to the body and create the bar and
text elements inside it, with text `0%` — the only place a progress-bar
DOM element is ever created; otherwise keep the existing elements, reset
the text to `0%` and the bar width to `0%`. -/
def createProgressBar (s : ProgressBarState) : ProgressBarState :=
  if s.progressBarContainer = none ∧ s.progressBar = none then
    { progressBarContainer := some (3 * s.createdBars),
      progressBar := some (3 * s.createdBars + 1),
      textBar := some (3 * s.createdBars + 2),
      createdBars := s.createdBars + 1,
      textShown := jstr "0%",
      widthPercent := 0 }
  else
    { s with textShown := jstr "0%", widthPercent := 0 }

/-- Embeds `DetailBlock.updateProgressBar` (src/unnamed/part_000 lines
326-330): set the text to the percentage and the bar width to it. -/
def updateProgressBar (s : ProgressBarState) (i : Nat) : ProgressBarState :=
  { s with textShown := jstr (toString i ++ "%"), widthPercent := i }

/-- A concrete Spawn instruction on instance ID `[1]`. -/
def sampleSpawn : Instruction := ⟨[1], .spawn (jstr "c") []⟩

/-- A concrete Invoke instruction on instance ID `[1]`. -/
def sampleInvoke : Instruction := ⟨[1], .invoke (jstr "c") []⟩

/-- A concrete genesis block carrying `sampleSpawn`. -/
def sampleBlock0 : SkipBlock := ⟨0, [16], [], [⟨[17]⟩], [⟨true, ⟨[sampleSpawn]⟩⟩]⟩

/-- A concrete tip block carrying `sampleInvoke`. -/
def sampleBlock1 : SkipBlock := ⟨1, [17], [[16]], [], [⟨true, ⟨[sampleInvoke]⟩⟩]⟩

/-- A concrete two-block chain with one match of `[1]` in each block. -/
def sampleChain : List SkipBlock := [sampleBlock0, sampleBlock1]

/-- A concrete one-block chain whose single block contains two
instructions on the same instance ID `[1]`. -/
def twoMatchChain : List SkipBlock :=
  [⟨0, [170], [], [], [⟨true, ⟨[sampleSpawn, sampleInvoke]⟩⟩]⟩]

/-! ## Theorems -/

namespace Utils

theorem hexCharVal_hexDigitChar {n : Nat} (h : n < 16) :
    hexCharVal (hexDigitChar n) = some n := by
  interval_cases n <;> rfl

theorem hexPairs_bytes2String {b : Buffer} (hb : ∀ x ∈ b, x < 256) :
    hexPairs (bytes2String b) = b := by
  induction b with
  | nil => rfl
  | cons x xs ih =>
    have hx : x < 256 := hb x (List.mem_cons_self x xs)
    have hxs : ∀ y ∈ xs, y < 256 := fun y hy => hb y (List.mem_cons_of_mem x hy)
    have hhi : x / 16 < 16 := by omega
    have hlo : x % 16 < 16 := Nat.mod_lt x (by omega)
    have step : bytes2String (x :: xs) =
        hexDigitChar (x / 16) :: hexDigitChar (x % 16) :: bytes2String xs := by
      simp [bytes2String, byteToHex]
    rw [step]
    simp only [hexPairs, hexCharVal_hexDigitChar hhi, hexCharVal_hexDigitChar hlo,
      ih hxs]
    congr 1
    omega

theorem bytes2String_nil_iff {b : Buffer} : bytes2String b = [] ↔ b = [] := by
  cases b with
  | nil => simp [bytes2String]
  | cons x xs =>
    simp [bytes2String, byteToHex]

end Utils

theorem getLeftBlockHash_eq_none {b : SkipBlock} (h : b.backlinks = []) :
    Utils.getLeftBlockHash b = none := by
  simp [Utils.getLeftBlockHash, h]

theorem getRightBlockHash_eq_none {b : SkipBlock} (h : b.forwardLinks = []) :
    Utils.getRightBlockHash b = none := by
  simp [Utils.getRightBlockHash, h]

theorem walk_eq_nil_of_no_link {fetch : JSString → Except FetchErr SkipBlock}
    {b : SkipBlock} {dir : Direction} (h : nextLinkHash b dir = none) :
    ∀ fuel, walk fetch fuel b dir = .ok [] := by
  intro fuel
  cases fuel with
  | zero => rfl
  | succ n => simp [walk, h]

/-- C10: for every buffer of bytes, decoding with `hex2Bytes` the
hexadecimal string produced by `bytes2String` yields the original buffer,
and `hex2Bytes` of a missing (`undefined`/`null`) or empty string is a
zero-length buffer rather than a failure. -/
theorem hex2Bytes_bytes2String_roundtrip (b : Buffer) (hb : ∀ x ∈ b, x < 256) :
    Utils.hex2Bytes (some (Utils.bytes2String b)) = b ∧
    Utils.hex2Bytes none = [] ∧
    Utils.hex2Bytes (some []) = [] := by
  refine ⟨?_, rfl, rfl⟩
  simp only [Utils.hex2Bytes]
  by_cases h : Utils.bytes2String b = []
  · rw [if_pos h]
    exact (Utils.bytes2String_nil_iff.mp h).symm
  · rw [if_neg h]
    exact Utils.hexPairs_bytes2String hb

theorem hex2Bytes_bytes2String_roundtrip_witness :
    (∀ x ∈ ([171, 0, 255] : Buffer), x < 256) ∧
    (Utils.hex2Bytes (some (Utils.bytes2String [171, 0, 255])) = [171, 0, 255] ∧
     Utils.hex2Bytes none = [] ∧
     Utils.hex2Bytes (some []) = []) :=
  ⟨by decide, hex2Bytes_bytes2String_roundtrip [171, 0, 255] (by decide)⟩

/-- C2 counterexample: on a concrete genesis block (no backlink),
`Utils.getLeftBlockHash` evaluates `block.backlinks[0]`, which is
`undefined`, and the `toString` call inside `bytes2String` throws —
embedded as `none`; likewise `Utils.getRightBlockHash` on a concrete tip
block (no forward link).  This refutes the claim's assertion that these
computations do not raise an error on such blocks. -/
theorem boundary_hash_raises :
    Utils.getLeftBlockHash ⟨0, [1], [], [⟨[2]⟩], []⟩ = none ∧
    Utils.getRightBlockHash ⟨3, [2], [[1]], [], []⟩ = none :=
  ⟨rfl, rfl⟩

/-- C2 (amended): walking BACKWARD from a block with no backlink, and
FORWARD from a block with no forward link, yields an empty sequence with
no error — but `Utils.getLeftBlockHash` / `Utils.getRightBlockHash`
applied to such blocks do raise an error (an access to `undefined`,
embedded as `none`); the walker terminates cleanly because it treats the
absent link as the chain boundary rather than computing a next hash. -/
theorem walk_boundary_empty (fetch : JSString → Except FetchErr SkipBlock)
    (fuel : Nat) (b c : SkipBlock)
    (hb : b.backlinks = []) (hc : c.forwardLinks = []) :
    walk fetch fuel b .backward = .ok [] ∧
    walk fetch fuel c .forward = .ok [] ∧
    Utils.getLeftBlockHash b = none ∧
    Utils.getRightBlockHash c = none := by
  have hlb : nextLinkHash b .backward = none := getLeftBlockHash_eq_none hb
  have hrc : nextLinkHash c .forward = none := getRightBlockHash_eq_none hc
  exact ⟨walk_eq_nil_of_no_link hlb fuel, walk_eq_nil_of_no_link hrc fuel,
    getLeftBlockHash_eq_none hb, getRightBlockHash_eq_none hc⟩

theorem walk_boundary_empty_witness :
    (([] : List Buffer) = [] ∧ ([] : List ForwardLink) = []) ∧
    (walk (fun _ => .error ⟨jstr "down"⟩) 7 ⟨0, [1], [], [⟨[2]⟩], []⟩ .backward = .ok [] ∧
     walk (fun _ => .error ⟨jstr "down"⟩) 7 ⟨3, [2], [[1]], [], []⟩ .forward = .ok [] ∧
     Utils.getLeftBlockHash ⟨0, [1], [], [⟨[2]⟩], []⟩ = none ∧
     Utils.getRightBlockHash ⟨3, [2], [[1]], [], []⟩ = none) :=
  ⟨⟨rfl, rfl⟩,
   walk_boundary_empty (fun _ => .error ⟨jstr "down"⟩) 7
     ⟨0, [1], [], [⟨[2]⟩], []⟩ ⟨3, [2], [[1]], [], []⟩ rfl rfl⟩

/-- C4: on a block whose forward-link list starts with `fl`, the FORWARD
walker's first fetch request is exactly the hexadecimal string of
`fl.to`, which is what `Utils.getRightBlockHash` computes; symmetrically
the BACKWARD walker's first fetch request on a block whose backlink list
starts with `h` is the hexadecimal string of `h`, as computed by
`Utils.getLeftBlockHash`. -/
theorem walker_follows_canonical_links
    (fetch : JSString → Except FetchErr SkipBlock) (fuel : Nat)
    (b c : SkipBlock) (fl : ForwardLink) (lf : List ForwardLink)
    (hb : Buffer) (lb : List Buffer)
    (hfwd : b.forwardLinks = fl :: lf) (hback : c.backlinks = hb :: lb) :
    Utils.getRightBlockHash b = some (Utils.bytes2String fl.«to») ∧
    (walkFetches fetch (fuel + 1) b .forward).head? = Utils.getRightBlockHash b ∧
    Utils.getLeftBlockHash c = some (Utils.bytes2String hb) ∧
    (walkFetches fetch (fuel + 1) c .backward).head? = Utils.getLeftBlockHash c := by
  have h1 : Utils.getRightBlockHash b = some (Utils.bytes2String fl.«to») := by
    simp [Utils.getRightBlockHash, hfwd]
  have h2 : Utils.getLeftBlockHash c = some (Utils.bytes2String hb) := by
    simp [Utils.getLeftBlockHash, hback]
  refine ⟨h1, ?_, h2, ?_⟩
  · show (walkFetches fetch (fuel + 1) b .forward).head? = _
    have : nextLinkHash b .forward = some (Utils.bytes2String fl.«to») := h1
    simp only [walkFetches, this, h1]
    cases fetch (Utils.bytes2String fl.«to») <;> rfl
  · have : nextLinkHash c .backward = some (Utils.bytes2String hb) := h2
    simp only [walkFetches, this, h2]
    cases fetch (Utils.bytes2String hb) <;> rfl

theorem walker_follows_canonical_links_witness :
    (([⟨[9]⟩] : List ForwardLink) = ⟨[9]⟩ :: [] ∧ ([[7]] : List Buffer) = [7] :: []) ∧
    (Utils.getRightBlockHash ⟨1, [5], [[7]], [⟨[9]⟩], []⟩ =
       some (Utils.bytes2String [9]) ∧
     (walkFetches (fun _ => .error ⟨jstr "e"⟩) (2 + 1)
        ⟨1, [5], [[7]], [⟨[9]⟩], []⟩ .forward).head? =
       Utils.getRightBlockHash ⟨1, [5], [[7]], [⟨[9]⟩], []⟩ ∧
     Utils.getLeftBlockHash ⟨1, [5], [[7]], [⟨[9]⟩], []⟩ =
       some (Utils.bytes2String [7]) ∧
     (walkFetches (fun _ => .error ⟨jstr "e"⟩) (2 + 1)
        ⟨1, [5], [[7]], [⟨[9]⟩], []⟩ .backward).head? =
       Utils.getLeftBlockHash ⟨1, [5], [[7]], [⟨[9]⟩], []⟩) :=
  ⟨⟨rfl, rfl⟩,
   walker_follows_canonical_links (fun _ => .error ⟨jstr "e"⟩) 2
     ⟨1, [5], [[7]], [⟨[9]⟩], []⟩ ⟨1, [5], [[7]], [⟨[9]⟩], []⟩
     ⟨[9]⟩ [] [7] [] rfl rfl⟩

/-- C7: `Utils.getBlock` and `Utils.getBlockByIndex` pass the underlying
RPC outcome through — a rejection propagates as the same rejection, and
they resolve exactly when the RPC resolves (never with a missing block);
a walker whose fetch fails ends its sequence with that explicit error,
which is distinct from the normal-exhaustion result `.ok []`. -/
theorem fetch_failure_propagates
    (rpc : Buffer → Except FetchErr SkipBlock)
    (rpcIdx : Buffer → Nat → Except FetchErr Utils.GetSingleBlockReply)
    (hashB genesis : Buffer) (idx : Nat) (e : FetchErr)
    (fetch : JSString → Except FetchErr SkipBlock) (b : SkipBlock)
    (dir : Direction) (h : JSString) (fuel : Nat)
    (hrpc : rpc hashB = .error e) (hrpcIdx : rpcIdx genesis idx = .error e)
    (hlink : nextLinkHash b dir = some h) (hfetch : fetch h = .error e) :
    Utils.getBlock rpc hashB = .error e ∧
    Utils.getBlockByIndex rpcIdx genesis idx = .error e ∧
    (∀ hb, Utils.getBlock rpc hb = rpc hb) ∧
    walk fetch (fuel + 1) b dir = .error e ∧
    walk fetch (fuel + 1) b dir ≠ .ok [] := by
  have hgb : ∀ hb, Utils.getBlock rpc hb = rpc hb := by
    intro hb
    simp only [Utils.getBlock]
    cases rpc hb <;> rfl
  have hw : walk fetch (fuel + 1) b dir = .error e := by
    simp [walk, hlink, hfetch]
  refine ⟨by rw [hgb, hrpc], ?_, hgb, hw, ?_⟩
  · simp only [Utils.getBlockByIndex, hrpcIdx]
  · rw [hw]
    simp

theorem fetch_failure_propagates_witness :
    ((fun (_ : Buffer) => (.error ⟨jstr "net"⟩ : Except FetchErr SkipBlock)) [4] =
        .error ⟨jstr "net"⟩ ∧
     (fun (_ : Buffer) (_ : Nat) =>
        (.error ⟨jstr "net"⟩ : Except FetchErr Utils.GetSingleBlockReply)) [1] 2 =
        .error ⟨jstr "net"⟩ ∧
     nextLinkHash ⟨1, [5], [[7]], [⟨[9]⟩], []⟩ .backward =
        some (Utils.bytes2String [7]) ∧
     (fun (_ : JSString) => (.error ⟨jstr "net"⟩ : Except FetchErr SkipBlock))
        (Utils.bytes2String [7]) = .error ⟨jstr "net"⟩) ∧
    (Utils.getBlock (fun _ => .error ⟨jstr "net"⟩) [4] = .error ⟨jstr "net"⟩ ∧
     Utils.getBlockByIndex (fun _ _ => .error ⟨jstr "net"⟩) [1] 2 = .error ⟨jstr "net"⟩ ∧
     (∀ hb, Utils.getBlock (fun _ => .error ⟨jstr "net"⟩) hb =
        (fun (_ : Buffer) => (.error ⟨jstr "net"⟩ : Except FetchErr SkipBlock)) hb) ∧
     walk (fun _ => .error ⟨jstr "net"⟩) (3 + 1) ⟨1, [5], [[7]], [⟨[9]⟩], []⟩ .backward =
        .error ⟨jstr "net"⟩ ∧
     walk (fun _ => .error ⟨jstr "net"⟩) (3 + 1) ⟨1, [5], [[7]], [⟨[9]⟩], []⟩ .backward ≠
        .ok []) :=
  ⟨⟨rfl, rfl, rfl, rfl⟩,
   fetch_failure_propagates (fun _ => .error ⟨jstr "net"⟩)
     (fun _ _ => .error ⟨jstr "net"⟩) [4] [1] 2 ⟨jstr "net"⟩
     (fun _ => .error ⟨jstr "net"⟩) ⟨1, [5], [[7]], [⟨[9]⟩], []⟩
     .backward (Utils.bytes2String [7]) 3 rfl rfl rfl rfl⟩

theorem createProgressBar_fixed :
    createProgressBar (createProgressBar initProgressBarState) =
      createProgressBar initProgressBarState := by
  decide

theorem createProgressBar_iterate (n : Nat) :
    createProgressBar^[n + 1] initProgressBarState =
      createProgressBar initProgressBarState := by
  induction n with
  | zero => rfl
  | succ m ih =>
    rw [Function.iterate_succ_apply', ih, createProgressBar_fixed]

/-- C9: any number of `createProgressBar` calls on one `DetailBlock`
instance creates the progress-bar elements at most once — the first call
creates the container, bar and text elements (one bar group) showing
`0%`, and every later call leaves the state exactly as after the first
call, resetting the shown progress to `0%`. -/
theorem createProgressBar_single_bar (n : Nat) :
    createProgressBar^[n + 1] initProgressBarState =
      createProgressBar initProgressBarState ∧
    (createProgressBar^[n + 1] initProgressBarState).createdBars = 1 ∧
    (createProgressBar^[n + 1] initProgressBarState).progressBarContainer = some 0 ∧
    (createProgressBar^[n + 1] initProgressBarState).textShown = jstr "0%" := by
  refine ⟨createProgressBar_iterate n, ?_, ?_, ?_⟩ <;>
    rw [createProgressBar_iterate n] <;> decide

/-- C3 (code bug): rendering a Spawn or Invoke instruction completes in
both the block's transaction listing and the scan-result listing, but a
Delete instruction makes both renderers throw: `listTransaction` never
assigns `args` in the Delete branch yet unconditionally runs
`args.forEach`, and `printDataBrowsing` additionally only assigns a
shadowing `textContainer` local in its Delete branch and then calls
`textContainer.append` on the outer `null` one.  The specification says
a Delete carries a contract identifier only and is rendered without
error. -/
theorem delete_rendering_throws (contractID : JSString) (iid : Buffer)
    (blockHashHex : JSString) (args : List InstrArg) :
    listTransactionInstr ⟨iid, .delete contractID⟩ = none ∧
    printDataBrowsingInstr blockHashHex ⟨iid, .delete contractID⟩ = none ∧
    (listTransactionInstr ⟨iid, .spawn contractID args⟩).isSome = true ∧
    (listTransactionInstr ⟨iid, .invoke contractID args⟩).isSome = true ∧
    (printDataBrowsingInstr blockHashHex ⟨iid, .spawn contractID args⟩).isSome = true ∧
    (printDataBrowsingInstr blockHashHex ⟨iid, .invoke contractID args⟩).isSome = true :=
  ⟨rfl, rfl, rfl, rfl, rfl, rfl⟩

theorem scanRun_append (s : ScanState) (l1 l2 : List ScanEvent) :
    scanRun s (l1 ++ l2) =
      ((scanRun (scanRun s l1).1 l2).1,
       (scanRun s l1).2.1 ++ (scanRun (scanRun s l1).1 l2).2.1,
       (scanRun s l1).2.2 ++ (scanRun (scanRun s l1).1 l2).2.2) := by
  induction l1 generalizing s with
  | nil => simp [scanRun]
  | cons ev evs ih => simp [scanRun, ih, List.append_assoc]

theorem scanRun_cancelled {s : ScanState} (hc : s.cancelled = true) :
    ∀ evs : List ScanEvent,
      (scanRun s evs).2.1 = [] ∧ (scanRun s evs).2.2 = [] ∧
      (scanRun s evs).1.cancelled = true := by
  intro evs
  induction evs generalizing s with
  | nil => exact ⟨rfl, rfl, hc⟩
  | cons ev evs ih =>
    cases ev with
    | cancel =>
      have h := ih (s := { s with cancelled := true, backQueue := [], fwdQueue := [] }) rfl
      simp [scanRun, scanStep, h.1, h.2.1, h.2.2]
    | deliver b =>
      have hstep : scanStep s (.deliver b) = (s, [], []) := by
        simp [scanStep, hc]
      have h := ih hc
      simp [scanRun, hstep, h.1, h.2.1, h.2.2]

/-- C8: the scan's output streams are closed by cancellation — running
the scanner over events that continue past the cancellation produces
exactly the matches and progress values of the run truncated at the
cancellation, so a caller that had observed `m` matches when it
cancelled never observes more than those `m` matches, and no progress
value is emitted after the cancellation is acknowledged. -/
theorem cancelled_scan_emits_no_more (s : ScanState)
    (pre post : List ScanEvent) :
    (scanRun s (pre ++ ScanEvent.cancel :: post)).2.1 =
      (scanRun s (pre ++ [ScanEvent.cancel])).2.1 ∧
    (scanRun s (pre ++ ScanEvent.cancel :: post)).2.2 =
      (scanRun s (pre ++ [ScanEvent.cancel])).2.2 := by
  have e1 : pre ++ ScanEvent.cancel :: post = (pre ++ [ScanEvent.cancel]) ++ post := by
    simp
  have hc : (scanRun s (pre ++ [ScanEvent.cancel])).1.cancelled = true := by
    rw [scanRun_append]
    simp [scanRun, scanStep]
  have h2 := scanRun_cancelled hc post
  rw [e1, scanRun_append]
  constructor <;> simp [h2.1, h2.2.1]

theorem progressStream_succ (total v : Nat) :
    progressStream total (v + 1) =
      progressStream total v ++ [(v + 1) * 100 / total] := by
  simp [progressStream, List.range_succ]

theorem progressStream_lt_100 {total v : Nat} (hv : v < total) :
    ∀ x ∈ progressStream total v, x < 100 := by
  intro x hx
  simp only [progressStream, List.mem_map, List.mem_range] at hx
  obtain ⟨k, hk, rfl⟩ := hx
  rw [Nat.div_lt_iff_lt_mul (by omega)]
  omega

theorem progressStream_chain (total v : Nat) :
    List.Chain' (· ≤ ·) (progressStream total v) := by
  apply List.Pairwise.chain'
  unfold progressStream
  rw [List.pairwise_map]
  apply (List.pairwise_lt_range v).imp
  intro a b hab
  exact Nat.div_le_div_right (Nat.mul_le_mul_right 100 (by omega))

theorem progressStream_getLast (total v : Nat) (h0 : 0 < total) (hv : v ≤ total) :
    ((progressStream total v).getLast? = some 100 ↔ v = total) := by
  cases v with
  | zero =>
    constructor
    · intro h
      exact absurd h (by simp [progressStream])
    · intro h
      omega
  | succ u =>
    rw [progressStream_succ, List.getLast?_concat]
    rw [Option.some_inj]
    constructor
    · intro h
      by_contra hne
      have hlt : u + 1 < total := by omega
      have hdiv : (u + 1) * 100 / total < 100 := by
        rw [Nat.div_lt_iff_lt_mul h0]
        omega
      omega
    · intro h
      subst h
      exact Nat.mul_div_cancel_left 100 h0

/-- C6: the progress stream of a scan is monotonically non-decreasing,
its final value is `100` exactly when the scan completed (both walkers
exhausted: all `total` blocks visited; a direction-fatal fetch error
leaves `visited < total`), and a completed scan emits `100` exactly
once. -/
theorem progress_monotone_and_final (total visited : Nat)
    (h0 : 0 < total) (hv : visited ≤ total) :
    List.Chain' (· ≤ ·) (progressStream total visited) ∧
    ((progressStream total visited).getLast? = some 100 ↔ visited = total) ∧
    (visited = total → (progressStream total visited).count 100 = 1) := by
  refine ⟨progressStream_chain total visited,
    progressStream_getLast total visited h0 hv, ?_⟩
  rintro rfl
  obtain ⟨t, rfl⟩ : ∃ t, visited = t + 1 := ⟨visited - 1, by omega⟩
  rw [progressStream_succ, List.count_append]
  have hz : (progressStream (t + 1) t).count 100 = 0 := by
    rw [List.count_eq_zero]
    intro hmem
    have := progressStream_lt_100 (by omega) 100 hmem
    omega
  have h100 : (t + 1) * 100 / (t + 1) = 100 :=
    Nat.mul_div_cancel_left 100 (by omega)
  rw [hz, h100]
  rfl

theorem progress_monotone_and_final_witness :
    (0 < 4 ∧ 4 ≤ 4) ∧
    (List.Chain' (· ≤ ·) (progressStream 4 4) ∧
     ((progressStream 4 4).getLast? = some 100 ↔ 4 = 4) ∧
     (4 = 4 → (progressStream 4 4).count 100 = 1)) :=
  ⟨⟨by decide, by decide⟩, progress_monotone_and_final 4 4 (by decide) (by decide)⟩

theorem interleave_perm {α : Type} (sched : List Bool) (xs ys : List α) :
    (interleave sched xs ys).Perm (xs ++ ys) := by
  induction sched generalizing xs ys with
  | nil =>
    simp only [interleave]
    exact List.Perm.refl _
  | cons b s ih =>
    cases b with
    | true =>
      cases xs with
      | nil =>
        simp only [interleave, List.nil_append]
        exact List.Perm.refl _
      | cons x xs' =>
        simp only [interleave, List.cons_append]
        exact (ih xs' ys).cons x
    | false =>
      cases ys with
      | nil =>
        simp only [interleave, List.append_nil]
        exact List.Perm.refl _
      | cons y ys' =>
        simp only [interleave]
        exact ((ih xs ys').cons y).trans List.perm_middle.symm

theorem perm_shuffle {α : Type} (a b c : List α) :
    (b ++ (a ++ c)).Perm (a ++ (b ++ c)) := by
  have h1 : b ++ (a ++ c) = (b ++ a) ++ c := (List.append_assoc b a c).symm
  have h2 : ((b ++ a) ++ c).Perm ((a ++ b) ++ c) :=
    List.perm_append_comm.append_right c
  have h3 : (a ++ b) ++ c = a ++ (b ++ c) := List.append_assoc a b c
  rw [h1, ← h3]
  exact h2

theorem chain_decomp {α : Type} {chain : List α} {i : Nat} (hi : i < chain.length) :
    chain.take i ++ chain[i] :: chain.drop (i + 1) = chain := by
  conv_rhs => rw [← List.take_append_drop i chain]
  rw [List.drop_eq_getElem_cons hi]

theorem blockMatches_length (target : Buffer) (b : SkipBlock) :
    (blockMatches target b).length =
      (blockInstructions b).countP (fun ins => decide (ins.instanceID = target)) := by
  simp [blockMatches, List.countP_eq_length_filter]

theorem chainMatches_length (target : Buffer) (chain : List SkipBlock) :
    (chainMatches target chain).length =
      (chainInstructions chain).countP (fun ins => decide (ins.instanceID = target)) := by
  induction chain with
  | nil => rfl
  | cons b rest ih =>
    simp only [chainMatches, chainInstructions, List.map_cons, List.flatten_cons,
      List.length_append, List.countP_append]
    simp only [chainMatches, chainInstructions] at ih
    rw [blockMatches_length, ih]

theorem scanMatches_perm (chain : List SkipBlock) (i : Nat) (target : Buffer)
    (sched : List Bool) (hi : i < chain.length) :
    (scanMatches chain i target sched).Perm (chainMatches target chain) := by
  have hget : chain[i]? = some chain[i] := List.getElem?_eq_getElem hi
  have h1 : scanMatches chain i target sched =
      blockMatches target chain[i] ++
        (interleave sched ((chain.take i).reverse.map (blockMatches target))
          ((chain.drop (i + 1)).map (blockMatches target))).flatten := by
    simp only [scanMatches, hget]
  have hR : chainMatches target chain =
      ((chain.take i).map (blockMatches target)).flatten ++
        (blockMatches target chain[i] ++
          ((chain.drop (i + 1)).map (blockMatches target)).flatten) := by
    unfold chainMatches
    conv_lhs => rw [← chain_decomp hi]
    rw [List.map_append, List.map_cons, List.flatten_append, List.flatten_cons]
  have p1 : ((interleave sched ((chain.take i).reverse.map (blockMatches target))
      ((chain.drop (i + 1)).map (blockMatches target))).flatten).Perm
      ((((chain.take i).reverse.map (blockMatches target)).flatten) ++
        (((chain.drop (i + 1)).map (blockMatches target)).flatten)) := by
    have h := (interleave_perm sched
      ((chain.take i).reverse.map (blockMatches target))
      ((chain.drop (i + 1)).map (blockMatches target))).flatten
    rwa [List.flatten_append] at h
  have hAr : (((chain.take i).reverse.map (blockMatches target)).flatten).Perm
      (((chain.take i).map (blockMatches target)).flatten) := by
    rw [List.map_reverse]
    exact (List.reverse_perm _).flatten
  rw [h1, hR]
  exact (p1.append_left _).trans
    (((hAr.append_right _).append_left _).trans (perm_shuffle _ _ _))

/-- C1: a completed (uncancelled) scan started at any position of the
chain emits, for every delivery schedule of the two walkers, a
permutation of the whole chain's matches — every instruction whose
instance ID byte sequence equals the origin's counts as a match, each
occurrence exactly once, so exactly `k` matches when the instance ID
occurs in `k` instructions. -/
theorem scan_emits_each_occurrence_once (chain : List SkipBlock) (i : Nat)
    (target : Buffer) (sched : List Bool) (hi : i < chain.length) :
    (scanMatches chain i target sched).Perm (chainMatches target chain) ∧
    (scanMatches chain i target sched).length =
      (chainInstructions chain).countP
        (fun ins => decide (ins.instanceID = target)) := by
  have hp := scanMatches_perm chain i target sched hi
  exact ⟨hp, hp.length_eq.trans (chainMatches_length target chain)⟩

theorem scan_emits_each_occurrence_once_witness :
    0 < sampleChain.length ∧
    ((scanMatches sampleChain 0 [1] [false]).Perm (chainMatches [1] sampleChain) ∧
     (scanMatches sampleChain 0 [1] [false]).length =
       (chainInstructions sampleChain).countP
         (fun ins => decide (ins.instanceID = [1]))) :=
  ⟨by decide, scan_emits_each_occurrence_once sampleChain 0 [1] [false] (by decide)⟩

/-- C5 (amended): the origin instruction's match is included in the
emitted result set, and the rendered scan listing highlights exactly the
entries whose block-hash string equals the clicked block's hash — which
always includes the origin's entry, but equally every other match from
the clicked block. -/
theorem origin_included_and_highlight_by_block_hash (chain : List SkipBlock)
    (i : Nat) (target : Buffer) (sched : List Bool) (b : SkipBlock)
    (ins : Instruction) (hb : chain[i]? = some b)
    (hins : ins ∈ blockInstructions b) (ht : ins.instanceID = target) :
    (⟨Utils.bytes2String b.hash, ins⟩ : ScanMatch) ∈
      scanMatches chain i target sched ∧
    (∀ hashes clicked j, j ∈ highlightedEntries hashes clicked ↔
      (j < hashes.length ∧ hashes.getD j [] = clicked)) := by
  constructor
  · have hmem : ins ∈ (blockInstructions b).filter
        (fun x => decide (x.instanceID = target)) :=
      List.mem_filter.mpr ⟨hins, by simp [ht]⟩
    have hbm : (⟨Utils.bytes2String b.hash, ins⟩ : ScanMatch) ∈
        blockMatches target b :=
      List.mem_map.mpr ⟨ins, hmem, rfl⟩
    simp only [scanMatches, hb]
    exact List.mem_append_left _ hbm
  · intro hashes clicked j
    simp [highlightedEntries, List.mem_filter, List.mem_range]

theorem origin_included_and_highlight_by_block_hash_witness :
    (sampleChain[0]? = some sampleBlock0 ∧
     sampleSpawn ∈ blockInstructions sampleBlock0 ∧
     sampleSpawn.instanceID = [1]) ∧
    ((⟨Utils.bytes2String sampleBlock0.hash, sampleSpawn⟩ : ScanMatch) ∈
       scanMatches sampleChain 0 [1] [] ∧
     (∀ hashes clicked j, j ∈ highlightedEntries hashes clicked ↔
       (j < hashes.length ∧ hashes.getD j [] = clicked))) :=
  ⟨⟨by decide, by decide, by decide⟩,
   origin_included_and_highlight_by_block_hash sampleChain 0 [1] []
     sampleBlock0 sampleSpawn (by decide) (by decide) (by decide)⟩

/-- C5 counterexample: a scan whose origin block contains two matching
instructions.  The source highlights an entry by comparing its block
hash to the clicked block's hash, so both entries of the result listing
are highlighted, not only the clicked (origin) instruction's entry. -/
theorem highlighted_entries_not_only_origin :
    (scanMatches twoMatchChain 0 [1] []).map ScanMatch.instruction =
      [sampleSpawn, sampleInvoke] ∧
    sampleSpawn ≠ sampleInvoke ∧
    highlightedEntries
      ((scanMatches twoMatchChain 0 [1] []).map ScanMatch.blockHash)
      (Utils.bytes2String [170]) = [0, 1] :=
  ⟨by decide, by decide, by decide⟩
